import Mathlib

/-!
Shallow embedding of the lead-generation utility layer.

Sources embedded:
- `src/shared/types/lead.ts` (the `Lead` record and request/response shapes)
- `src/shared/utils/leads.ts` (pure utility functions over leads)
- `src/frontend/components/Stats.tsx` (the `EmailCampaign` record)

TypeScript optional fields (`field?: T`) become `Option T`; JavaScript
numbers carrying confidences become `ℚ` (the comparisons in the source are
exact at the decimal literals involved); integer-like scores become `Int`.
JavaScript truthiness of an optional string (`undefined` and `""` are falsy)
and of an optional number (`undefined` and `0` are falsy) is made explicit
by `strTruthy` and `numTruthy`.
-/

namespace LeadGen

/-- Embedding of the `Lead` interface from `src/shared/types/lead.ts`.
`enrichment_data` is an untyped blob in the source; it is embedded as an
opaque optional string, which no embedded function inspects. -/
structure Lead where
  id : Int
  first_name : String
  last_name : String
  email : Option String := none
  predicted_email : Option String := none
  email_confidence : Option ℚ := none
  title : Option String := none
  company : String
  company_domain : Option String := none
  company_size : Option String := none
  industry : Option String := none
  location : Option String := none
  phone : Option String := none
  linkedin_url : Option String := none
  twitter_url : Option String := none
  website_url : Option String := none
  src_field : Option String := none
  notes : Option String := none
  status : String
  score : Int
  enrichment_data : Option String := none
  created_at : String
  updated_at : Option String := none
  project_id : Int
  owner_id : Int
deriving DecidableEq

/-- JavaScript truthiness of an optional string field: `undefined` and the
empty string are falsy. -/
def strTruthy : Option String → Bool
  | none => false
  | some s => !s.isEmpty

/-- JavaScript truthiness of an optional numeric field: `undefined` and `0`
are falsy (`NaN` does not arise for exact rationals). -/
def numTruthy : Option ℚ → Bool
  | none => false
  | some x => decide (x ≠ 0)

/-- Character class `[a-zA-Z0-9._%+-]` of the local part of the email
regular expression in `isValidEmail` (`src/shared/utils/leads.ts`). -/
def isLocalChar (c : Char) : Bool :=
  c.isAlpha || c.isDigit || c == '.' || c == '_' || c == '%' || c == '+' || c == '-'

/-- Character class `[a-zA-Z0-9.-]` of the domain part of the email
regular expression in `isValidEmail`. -/
def isDomainChar (c : Char) : Bool :=
  c.isAlpha || c.isDigit || c == '.' || c == '-'

/-- Recogniser for the anchored domain pattern `[a-zA-Z0-9.-]+\.[a-zA-Z]{2,}`.
A valid decomposition must cut at the last dot: the top-level-domain part is
all alphabetic, and any alphabetic run at the end of the string can only be
preceded by a dot at one position.  So the string matches iff its maximal
alphabetic suffix has length at least 2, is preceded by a dot, and the part
before that dot is a nonempty string over `[a-zA-Z0-9.-]`. -/
def domainPartOk (d : List Char) : Bool :=
  let rd := d.reverse
  let tld := rd.takeWhile (fun c => c.isAlpha)
  decide (2 ≤ tld.length) &&
    match rd.dropWhile (fun c => c.isAlpha) with
    | '.' :: rest => !rest.isEmpty && rest.all isDomainChar
    | _ => false

/-- Embedding of `isValidEmail` (`src/shared/utils/leads.ts`): the test of
the anchored regular expression
`^[a-zA-Z0-9._%+-]+@[a-zA-Z0-9.-]+\.[a-zA-Z]{2,}$`.  Neither character
class contains `@`, so a match has exactly one `@`: the local part is the
maximal prefix without `@`, the domain part the remainder after it.  The
guard `if (!email) return false` of the source is subsumed: the empty
string has no `@` and fails the match. -/
def isValidEmail (email : String) : Bool :=
  let cs := email.toList
  let l := cs.takeWhile (fun c => c != '@')
  match cs.dropWhile (fun c => c != '@') with
  | '@' :: d => !l.isEmpty && l.all isLocalChar && domainPartOk d
  | _ => false

/-- Embedding of `hasValidEmail` (`src/shared/utils/leads.ts`).  The source
guards each field with JavaScript truthiness before using it
(`lead.email && isValidEmail(lead.email)`, and
`lead.email_confidence && lead.email_confidence >= 0.7`). -/
def hasValidEmail (lead : Lead) : Bool :=
  (strTruthy lead.email && isValidEmail (lead.email.getD "")) ||
  (strTruthy lead.predicted_email && isValidEmail (lead.predicted_email.getD "") &&
    numTruthy lead.email_confidence &&
    decide ((7 : ℚ)/10 ≤ lead.email_confidence.getD 0))

/-- Embedding of `formatLeadScoreLabel` (`src/shared/utils/leads.ts`). -/
def formatLeadScoreLabel (score : Int) : String :=
  if score ≥ 90 then "Excellent"
  else if score ≥ 80 then "Very Good"
  else if score ≥ 70 then "Good"
  else if score ≥ 60 then "Fair"
  else "Poor"

/-- The ordering the comparator `(a, b) => b.score - a.score` of
`sortLeadsByScore` induces: `a` may be placed before `b` iff the comparator
is nonpositive at `(a, b)`, i.e. iff `b.score ≤ a.score`. -/
def scoreDescBefore (a b : Lead) : Prop :=
  b.score ≤ a.score

instance : DecidableRel scoreDescBefore := fun a b =>
  inferInstanceAs (Decidable (b.score ≤ a.score))

/-- Embedding of `sortLeadsByScore` (`src/shared/utils/leads.ts`):
`[...leads].sort((a, b) => b.score - a.score)`.  ECMAScript `sort` with a
consistent comparator produces the stable sort under the induced preorder;
stable insertion sort is that sort, stated extensionally. -/
def sortLeadsByScore (leads : List Lead) : List Lead :=
  List.insertionSort scoreDescBefore leads

/-- Embedding of `filterLeadsByMinScore` (`src/shared/utils/leads.ts`).
The source checks `minScore === undefined || minScore === null` and then
returns the input unchanged, so the bound is embedded as an `Option Int`. -/
def filterLeadsByMinScore (leads : List Lead) (minScore : Option Int) : List Lead :=
  match minScore with
  | none => leads
  | some m => leads.filter (fun lead => decide (m ≤ lead.score))

/-- The grouping key of `groupLeadsByCompany`:
`const company = lead.company || 'Unknown'` (the empty string is falsy). -/
def companyKey (lead : Lead) : String :=
  if lead.company.isEmpty then "Unknown" else lead.company

/-- Embedding of `groupLeadsByCompany` (`src/shared/utils/leads.ts`).  The
JavaScript record is embedded as a total function from keys to lists, an
absent key mapping to the empty list (`if (!groups[company]) groups[company] = []`);
`push` appends at the end, and `reduce` walks the input left to right. -/
def groupLeadsByCompany (leads : List Lead) : String → List Lead :=
  leads.foldl
    (fun groups lead => fun k =>
      if k = companyKey lead then groups k ++ [lead] else groups k)
    (fun _ => [])

/-- Embedding of `getBestEmail` (`src/shared/utils/leads.ts`): the real
email if truthy and valid, else the predicted email if truthy and valid,
else the empty string.  No confidence field is consulted. -/
def getBestEmail (lead : Lead) : String :=
  if strTruthy lead.email && isValidEmail (lead.email.getD "") then
    lead.email.getD ""
  else if strTruthy lead.predicted_email && isValidEmail (lead.predicted_email.getD "") then
    lead.predicted_email.getD ""
  else
    ""

/-- Modelled from the spec: the lead lifecycle states of the state machine
in section 4.1.  The repository holds only the shared type declarations
(`src/shared/types/lead.ts`); the backend orchestrator code is not under
`src/`. -/
inductive LeadStatus where
  | New
  | Enriching
  | Scored
  | Contacted
  | Qualified
  | Negotiating
  | Converted
  | Lost
  | EnrichmentFailed
deriving DecidableEq

/-- Modelled from the spec: the lead fields the Enrichment Orchestrator
reads and writes during one enrichment attempt (section 4.1); the
orchestrator code is not under `src/`. -/
structure ELead where
  id : Int
  status : LeadStatus
  score : Option Int
  email : Option String
  predicted_email : Option String
  email_confidence : Option ℚ
  company_domain : Option String
  failure_reason : Option String
deriving DecidableEq

/-- Modelled from the spec: the email-resolution step of one enrichment
attempt (section 4.1); the orchestrator code is not under `src/`.  The step
is skipped when a real email is already present; a missing `company_domain`
is an invalid input; an adapter error propagates as a failure reason. -/
def resolveEmail (lead : ELead)
    (emailAdapter : String → Except String (String × ℚ)) : Except String ELead :=
  if lead.email.isSome then Except.ok lead
  else
    match lead.company_domain with
    | none => Except.error "missing company_domain"
    | some dom =>
      match emailAdapter dom with
      | Except.error r => Except.error r
      | Except.ok (pe, conf) =>
        Except.ok { lead with predicted_email := some pe, email_confidence := some conf }

/-- Modelled from the spec: one enrichment attempt on a lead already in the
`Enriching` state (section 4.1); the orchestrator code is not under `src/`.
Email resolution runs first, then scoring.  On success the score, the
predicted email and the `Scored` status are written together; on failure
only the status and a recorded reason change, every other field keeping
its prior value. -/
def enrichLead (lead : ELead)
    (emailAdapter : String → Except String (String × ℚ))
    (scoringAdapter : ELead → Except String Int) : ELead :=
  match resolveEmail lead emailAdapter with
  | Except.error r =>
    { lead with status := LeadStatus.EnrichmentFailed, failure_reason := some r }
  | Except.ok resolved =>
    match scoringAdapter resolved with
    | Except.error r =>
      { lead with status := LeadStatus.EnrichmentFailed, failure_reason := some r }
    | Except.ok s =>
      { resolved with status := LeadStatus.Scored, score := some s, failure_reason := none }

/-- Modelled from the spec: one entry of the per-item result list a batch
enrich call returns (section 7); the route handler code is not under
`src/`, only the request shape `LeadBatchEnrichRequest` is
(`src/shared/types/lead.ts`). -/
structure BatchItemResult where
  lead_id : Int
  ok : Bool
deriving DecidableEq

/-- Modelled from the spec: the response of a batch enrich call, an HTTP
status plus the per-item result list. -/
structure BatchEnrichResponse where
  httpStatus : Nat
  items : List BatchItemResult
deriving DecidableEq

/-- Modelled from the spec: batch enrichment (sections 5 and 7); the route
handler code is not under `src/`.  Every lead of the batch runs its own
independent enrichment attempt; the call answers HTTP 200 with one result
per lead, a failed item never failing the batch. -/
def batchEnrich (leads : List ELead)
    (emailAdapter : String → Except String (String × ℚ))
    (scoringAdapter : ELead → Except String Int) : List ELead × BatchEnrichResponse :=
  let enriched := leads.map (fun l => enrichLead l emailAdapter scoringAdapter)
  (enriched,
   { httpStatus := 200,
     items := enriched.map (fun l =>
       { lead_id := l.id, ok := decide (l.status = LeadStatus.Scored) }) })

/-- Embedding of the `EmailCampaign` interface from
`src/frontend/components/Stats.tsx`. -/
structure EmailCampaign where
  id : Int
  name : String
  description : Option String := none
  status : String
  from_email : String
  reply_to : Option String := none
  template_id : Int
  sent_count : Nat
  open_count : Nat
  click_count : Nat
  reply_count : Nat
  scheduled_at : Option String := none
  project_id : Int
  creator_id : Int
  created_at : String
  updated_at : Option String := none
deriving DecidableEq

/-- Modelled from the spec: the events that touch the four campaign
counters after a campaign starts running (sections 4.2 and 5); the Campaign
Manager code is not under `src/`, only the `EmailCampaign` record is. -/
inductive CampaignEvent where
  | sendSuccess
  | opened
  | clicked
  | replied
deriving DecidableEq

/-- Modelled from the spec: applying one send or engagement event to a
running campaign increments exactly the matching counter (sections 4.2
and 5: counter updates are atomic increments, so no update is lost). -/
def applyEvent (c : EmailCampaign) : CampaignEvent → EmailCampaign
  | CampaignEvent.sendSuccess => { c with sent_count := c.sent_count + 1 }
  | CampaignEvent.opened => { c with open_count := c.open_count + 1 }
  | CampaignEvent.clicked => { c with click_count := c.click_count + 1 }
  | CampaignEvent.replied => { c with reply_count := c.reply_count + 1 }

/-- Modelled from the spec: a campaign after a sequence of delivered send
and engagement events. -/
def runEvents (c : EmailCampaign) (es : List CampaignEvent) : EmailCampaign :=
  es.foldl applyEvent c

/-- A heap of lead arrays, for claims about argument mutation: JavaScript
arrays are references into such a heap, `next` being the next fresh
reference. -/
structure ArrayHeap where
  arrays : Nat → List Lead
  next : Nat

/-- Embedding of the call `sortLeadsByScore(leads)` at the reference level:
the spread `[...leads]` allocates a fresh array holding a copy of the
argument contents, and `.sort` then sorts that fresh array in place.  The
result is the reference to the fresh array together with the heap after
the call. -/
def sortLeadsByScoreRef (h : ArrayHeap) (r : Nat) : Nat × ArrayHeap :=
  let copyRef := h.next
  let afterSpread : ArrayHeap :=
    ⟨fun i => if i = copyRef then h.arrays r else h.arrays i, h.next + 1⟩
  let afterSort : ArrayHeap :=
    { afterSpread with
      arrays := fun i =>
        if i = copyRef then sortLeadsByScore (afterSpread.arrays copyRef)
        else afterSpread.arrays i }
  (copyRef, afterSort)

/-- A lead with the given contact fields and score, used as concrete input
in witnesses and examples. -/
def mkTestLead (em pe : Option String) (conf : Option ℚ) (sc : Int) : Lead :=
  { id := 1, first_name := "Ada", last_name := "Lovelace", email := em,
    predicted_email := pe, email_confidence := conf, company := "Acme",
    status := "new", score := sc, created_at := "2024-01-01",
    project_id := 1, owner_id := 1 }

/-- A string passing the email validity check is nonempty. -/
theorem isEmpty_eq_false_of_isValidEmail {e : String} (h : isValidEmail e = true) :
    e.isEmpty = false := by
  cases he : e.isEmpty
  · rfl
  · have he2 : e = "" := (String.isEmpty_iff e).mp he
    rw [he2] at h
    exact absurd h (by decide)

/-- The first branch of `hasValidEmail`, characterised: the truthiness
guard is subsumed by validity, which forces a nonempty string. -/
theorem realEmailBranch_iff (os : Option String) :
    (strTruthy os && isValidEmail (os.getD "")) = true ↔
      ∃ e, os = some e ∧ isValidEmail e = true := by
  cases os with
  | none => simp [strTruthy]
  | some e =>
    simp only [strTruthy, Option.getD_some, Bool.and_eq_true, Bool.not_eq_true']
    constructor
    · rintro ⟨-, hv⟩
      exact ⟨e, rfl, hv⟩
    · rintro ⟨e2, he, hv⟩
      obtain rfl : e = e2 := by injection he
      exact ⟨isEmpty_eq_false_of_isValidEmail hv, hv⟩

/-- The second branch of `hasValidEmail`, characterised: the numeric
truthiness guard is subsumed by the threshold, which forces a nonzero
confidence. -/
theorem predictedEmailBranch_iff (op : Option String) (oc : Option ℚ) :
    (strTruthy op && isValidEmail (op.getD "") && numTruthy oc &&
      decide ((7 : ℚ)/10 ≤ oc.getD 0)) = true ↔
      ∃ p c, op = some p ∧ isValidEmail p = true ∧ oc = some c ∧ (7 : ℚ)/10 ≤ c := by
  cases op with
  | none => simp [strTruthy]
  | some p =>
    cases oc with
    | none => simp [strTruthy, numTruthy]
    | some c =>
      simp only [strTruthy, numTruthy, Option.getD_some, Bool.and_eq_true,
        Bool.not_eq_true', decide_eq_true_eq, Option.some.injEq]
      constructor
      · rintro ⟨⟨⟨hne, hv⟩, hnz⟩, hle⟩
        exact ⟨p, c, rfl, hv, rfl, hle⟩
      · rintro ⟨p2, c2, hp, hv, hc, hle⟩
        obtain rfl : p = p2 := hp
        obtain rfl : c = c2 := hc
        refine ⟨⟨⟨isEmpty_eq_false_of_isValidEmail hv, hv⟩, ?_⟩, hle⟩
        exact fun h0 => absurd hle (by rw [h0]; norm_num)

/-- C1: `hasValidEmail` holds iff the lead has a real email passing the
validity check, or a valid predicted email with confidence at least 0.7;
at the concrete lead with empty real email and predicted `a@b.co`,
confidence 0.69 is not contactable and confidence 0.70 is. -/
theorem hasValidEmail_iff_contactable :
    (∀ lead : Lead,
        hasValidEmail lead = true ↔
          ((∃ e, lead.email = some e ∧ isValidEmail e = true) ∨
           (∃ p c, lead.predicted_email = some p ∧ isValidEmail p = true ∧
              lead.email_confidence = some c ∧ (7 : ℚ)/10 ≤ c))) ∧
    hasValidEmail (mkTestLead (some "") (some "a@b.co") (some (69/100)) 50) = false ∧
    hasValidEmail (mkTestLead (some "") (some "a@b.co") (some (70/100)) 50) = true := by
  refine ⟨fun lead => ?_, ?_, ?_⟩
  · rw [hasValidEmail, Bool.or_eq_true, realEmailBranch_iff, predictedEmailBranch_iff]
  · simp [hasValidEmail, strTruthy, numTruthy, mkTestLead]
    norm_num
    decide
  · simp [hasValidEmail, strTruthy, numTruthy, mkTestLead]
    norm_num
    decide

/-- C2: `formatLeadScoreLabel` returns exactly one of the five labels, with
bands 90 and above Excellent, 80 to 89 Very Good, 70 to 79 Good, 60 to 69
Fair, and below 60 Poor. -/
theorem formatLeadScoreLabel_bands :
    ∀ score : Int,
      formatLeadScoreLabel score ∈
        (["Excellent", "Very Good", "Good", "Fair", "Poor"] : List String) ∧
      (formatLeadScoreLabel score = "Excellent" ↔ 90 ≤ score) ∧
      (formatLeadScoreLabel score = "Very Good" ↔ 80 ≤ score ∧ score < 90) ∧
      (formatLeadScoreLabel score = "Good" ↔ 70 ≤ score ∧ score < 80) ∧
      (formatLeadScoreLabel score = "Fair" ↔ 60 ≤ score ∧ score < 70) ∧
      (formatLeadScoreLabel score = "Poor" ↔ score < 60) := by
  intro s
  unfold formatLeadScoreLabel
  split_ifs with h1 h2 h3 h4 <;>
    refine ⟨by simp, ?_, ?_, ?_, ?_, ?_⟩ <;> simp <;> omega

/-- C3: `sortLeadsByScore` returns a permutation of its input with scores
in non-increasing order; on leads scoring 92 and 95 the result is ordered
95 then 92. -/
theorem sortLeadsByScore_desc :
    (∀ leads : List Lead,
        (sortLeadsByScore leads).Perm leads ∧
        List.Sorted scoreDescBefore (sortLeadsByScore leads)) ∧
    (sortLeadsByScore
        [mkTestLead none none none 92, mkTestLead none none none 95]).map Lead.score
      = [95, 92] := by
  constructor
  · intro leads
    haveI : IsTotal Lead scoreDescBefore := ⟨fun a b => le_total b.score a.score⟩
    haveI : IsTrans Lead scoreDescBefore := ⟨fun _ _ _ hab hbc => le_trans hbc hab⟩
    exact ⟨List.perm_insertionSort scoreDescBefore leads,
           List.sorted_insertionSort scoreDescBefore leads⟩
  · decide

/-- C4: with a present bound `m`, `filterLeadsByMinScore` keeps exactly the
leads scoring at least `m`, preserving relative order; with an absent bound
it returns the input unchanged. -/
theorem filterLeadsByMinScore_spec :
    (∀ (leads : List Lead) (m : Int),
        List.Sublist (filterLeadsByMinScore leads (some m)) leads ∧
        ∀ lead : Lead,
          lead ∈ filterLeadsByMinScore leads (some m) ↔ lead ∈ leads ∧ m ≤ lead.score) ∧
    (∀ leads : List Lead, filterLeadsByMinScore leads none = leads) := by
  refine ⟨fun leads m => ⟨?_, fun lead => ?_⟩, fun leads => rfl⟩
  · exact List.filter_sublist leads
  · simp [filterLeadsByMinScore]

/-- C8: `getBestEmail` never consults the confidence: whenever the real
email is absent or invalid and the predicted email is valid, it returns
the predicted email; and at confidence one half the same lead is not
contactable by `hasValidEmail`. -/
theorem getBestEmail_ignores_confidence :
    ∀ (lead : Lead) (p : String),
      lead.predicted_email = some p →
      isValidEmail p = true →
      (∀ e, lead.email = some e → isValidEmail e = false) →
      getBestEmail lead = p ∧
      (lead.email_confidence = some ((1 : ℚ)/2) → hasValidEmail lead = false) := by
  intro lead p hp hv he
  have hreal : (strTruthy lead.email && isValidEmail (lead.email.getD "")) = false := by
    cases hem : lead.email with
    | none => simp [strTruthy]
    | some e =>
      simp only [strTruthy, Option.getD_some, Bool.and_eq_false_iff]
      cases hie : e.isEmpty
      · exact Or.inr (he e hem)
      · simp [hie]
  constructor
  · rw [getBestEmail, hreal]
    simp only [Bool.false_and, if_neg Bool.false_ne_true, hp, strTruthy,
      Option.getD_some, hv]
    simp [isEmpty_eq_false_of_isValidEmail hv]
  · intro hc
    rw [hasValidEmail, hreal, hc]
    simp only [Bool.false_or, numTruthy, Option.getD_some]
    have hlt : decide ((7 : ℚ)/10 ≤ (1 : ℚ)/2) = false := by norm_num
    simp [hlt]
    intro _ _
    norm_num

/-- The concrete lead of the C8 witness: no real email, a valid predicted
email, confidence one half. -/
def leadC8 : Lead := mkTestLead none (some "a@b.co") (some ((1 : ℚ)/2)) 50

/-- Witness for C8 at `leadC8`. -/
theorem getBestEmail_ignores_confidence_witness :
    getBestEmail leadC8 = "a@b.co" ∧ hasValidEmail leadC8 = false := by
  have h := getBestEmail_ignores_confidence leadC8 "a@b.co" rfl (by decide)
      (fun e he => by simp [leadC8, mkTestLead] at he)
  exact ⟨h.1, h.2 rfl⟩

/-- C9: at the reference level, `sortLeadsByScore` leaves the argument
array untouched: after the call the heap still holds the original contents
at the argument reference, the returned reference is fresh, and the fresh
array holds the sorted contents. -/
theorem sortLeadsByScoreRef_frame :
    ∀ (h : ArrayHeap) (r : Nat), r < h.next →
      (sortLeadsByScoreRef h r).2.arrays r = h.arrays r ∧
      (sortLeadsByScoreRef h r).1 ≠ r ∧
      (sortLeadsByScoreRef h r).2.arrays (sortLeadsByScoreRef h r).1 =
        sortLeadsByScore (h.arrays r) := by
  intro h r hr
  have hne : r ≠ h.next := Nat.ne_of_lt hr
  refine ⟨?_, ?_, ?_⟩ <;> simp [sortLeadsByScoreRef, hne, hne.symm]

/-- The heap of the C9 witness: one allocated array holding two leads. -/
def heap0 : ArrayHeap :=
  ⟨fun _ => [mkTestLead none none none 92, mkTestLead none none none 95], 1⟩

/-- Witness for C9 at `heap0` and reference 0. -/
theorem sortLeadsByScoreRef_frame_witness :
    0 < heap0.next ∧
    ((sortLeadsByScoreRef heap0 0).2.arrays 0 = heap0.arrays 0 ∧
      (sortLeadsByScoreRef heap0 0).1 ≠ 0 ∧
      (sortLeadsByScoreRef heap0 0).2.arrays (sortLeadsByScoreRef heap0 0).1 =
        sortLeadsByScore (heap0.arrays 0)) :=
  ⟨Nat.one_pos, sortLeadsByScoreRef_frame heap0 0 Nat.one_pos⟩

/-- Unfolding of the grouping fold: the group at key `k` is the
accumulator entry followed by the input leads whose key is `k`, in input
order. -/
theorem groupFold_eq (leads : List Lead) (acc : String → List Lead) (k : String) :
    (leads.foldl
        (fun groups lead => fun k2 =>
          if k2 = companyKey lead then groups k2 ++ [lead] else groups k2)
        acc) k
      = acc k ++ leads.filter (fun l => decide (companyKey l = k)) := by
  induction leads generalizing acc with
  | nil => simp
  | cons l ls ih =>
    simp only [List.foldl_cons, List.filter_cons]
    rw [ih]
    by_cases hk : companyKey l = k
    · simp [hk.symm]
    · simp [hk, Ne.symm hk]

/-- The group at key `k` is the sublist of input leads keyed `k`. -/
theorem groupLeadsByCompany_eq_filter (leads : List Lead) (k : String) :
    groupLeadsByCompany leads k = leads.filter (fun l => decide (companyKey l = k)) := by
  rw [groupLeadsByCompany, groupFold_eq]
  simp

/-- C10: `groupLeadsByCompany` partitions its input: each group holds, in
input order, exactly the leads whose company key (company name, or
`Unknown` when empty) is the group key; every input lead is in its own key
group and in no other; and the group sizes over the occurring keys sum to
the input length. -/
theorem groupLeadsByCompany_partition :
    ∀ leads : List Lead,
      (∀ k : String,
          groupLeadsByCompany leads k = leads.filter (fun l => decide (companyKey l = k))) ∧
      (∀ lead, lead ∈ leads → lead ∈ groupLeadsByCompany leads (companyKey lead)) ∧
      (∀ lead k, lead ∈ groupLeadsByCompany leads k → k = companyKey lead) ∧
      ((leads.map companyKey).dedup.map
          (fun k => (groupLeadsByCompany leads k).length)).sum = leads.length := by
  intro leads
  refine ⟨groupLeadsByCompany_eq_filter leads, ?_, ?_, ?_⟩
  · intro lead hmem
    rw [groupLeadsByCompany_eq_filter]
    simp [hmem]
  · intro lead k hmem
    rw [groupLeadsByCompany_eq_filter] at hmem
    have h1 := (List.mem_filter.mp hmem).2
    have h2 : companyKey lead = k := by simpa using h1
    exact h2.symm
  · have hcount : ∀ k : String,
        (groupLeadsByCompany leads k).length = (leads.map companyKey).count k := by
      intro k
      rw [groupLeadsByCompany_eq_filter, ← List.countP_eq_length_filter, List.count,
        List.countP_map]
      apply List.countP_congr
      intro l _
      by_cases h : companyKey l = k <;> simp [h]
    calc ((leads.map companyKey).dedup.map
            (fun k => (groupLeadsByCompany leads k).length)).sum
        = ((leads.map companyKey).dedup.map
            (fun k => (leads.map companyKey).count k)).sum := by
          exact congrArg List.sum (List.map_congr_left (fun k _ => hcount k))
      _ = (leads.map companyKey).length := List.sum_map_count_dedup_eq_length _
      _ = leads.length := List.length_map leads companyKey

/-- A successful email resolution only fills the predicted email and its
confidence, leaving every other field unchanged. -/
theorem resolveEmail_shape (lead : ELead)
    (ea : String → Except String (String × ℚ)) (resolved : ELead)
    (h : resolveEmail lead ea = Except.ok resolved) :
    ∃ pe conf, resolved =
      { lead with predicted_email := pe, email_confidence := conf } := by
  unfold resolveEmail at h
  split at h
  · obtain rfl : lead = resolved := by injection h
    exact ⟨lead.predicted_email, lead.email_confidence, rfl⟩
  · split at h
    · exact absurd h (by simp)
    · split at h
      · exact absurd h (by simp)
      · rename_i pe conf heq
        injection h with h2
        exact ⟨some pe, some conf, h2.symm⟩

/-- An enrichment attempt ends in exactly one of two shapes: a scored lead
with the contact fields filled, or a failed lead differing from the input
only in status and recorded reason. -/
theorem enrichLead_shape (lead : ELead)
    (ea : String → Except String (String × ℚ)) (sa : ELead → Except String Int) :
    (∃ pe conf s, enrichLead lead ea sa =
        { lead with predicted_email := pe, email_confidence := conf,
                    status := LeadStatus.Scored, score := some s,
                    failure_reason := none }) ∨
    (∃ r, enrichLead lead ea sa =
        { lead with status := LeadStatus.EnrichmentFailed, failure_reason := some r }) := by
  unfold enrichLead
  split
  · exact Or.inr ⟨_, rfl⟩
  · rename_i resolved hres
    split
    · exact Or.inr ⟨_, rfl⟩
    · rename_i s hs
      obtain ⟨pe, conf, rfl⟩ := resolveEmail_shape lead ea resolved hres
      exact Or.inl ⟨pe, conf, s, rfl⟩

/-- C5: a lead in `Enriching` ends the attempt in `Scored` or in
`EnrichmentFailed`; on every failure the prior score is unchanged and a
reason is recorded; and each failure cause (missing company domain, email
adapter error, scoring adapter error) does produce `EnrichmentFailed` with
the corresponding reason. -/
theorem enrichLead_failure_frame :
    ∀ (lead : ELead) (ea : String → Except String (String × ℚ))
      (sa : ELead → Except String Int),
      lead.status = LeadStatus.Enriching →
      ((enrichLead lead ea sa).status = LeadStatus.Scored ∨
        (enrichLead lead ea sa).status = LeadStatus.EnrichmentFailed) ∧
      ((enrichLead lead ea sa).status = LeadStatus.EnrichmentFailed →
        (enrichLead lead ea sa).score = lead.score ∧
        ∃ r, (enrichLead lead ea sa).failure_reason = some r) ∧
      (lead.email = none → lead.company_domain = none →
        (enrichLead lead ea sa).status = LeadStatus.EnrichmentFailed ∧
        (enrichLead lead ea sa).failure_reason = some "missing company_domain") ∧
      (∀ dom r, lead.email = none → lead.company_domain = some dom →
        ea dom = Except.error r →
        (enrichLead lead ea sa).status = LeadStatus.EnrichmentFailed ∧
        (enrichLead lead ea sa).failure_reason = some r) ∧
      (∀ resolved r, resolveEmail lead ea = Except.ok resolved →
        sa resolved = Except.error r →
        (enrichLead lead ea sa).status = LeadStatus.EnrichmentFailed ∧
        (enrichLead lead ea sa).failure_reason = some r) := by
  intro lead ea sa _hst
  refine ⟨?_, ?_, ?_, ?_, ?_⟩
  · rcases enrichLead_shape lead ea sa with ⟨pe, conf, s, heq⟩ | ⟨r, heq⟩ <;>
      rw [heq] <;> simp
  · intro hfail
    rcases enrichLead_shape lead ea sa with ⟨pe, conf, s, heq⟩ | ⟨r, heq⟩
    · rw [heq] at hfail
      exact absurd hfail (by simp)
    · rw [heq]
      exact ⟨rfl, r, rfl⟩
  · intro he hd
    have hre : resolveEmail lead ea = Except.error "missing company_domain" := by
      simp [resolveEmail, he, hd]
    simp [enrichLead, hre]
  · intro dom r he hd hea
    have hre : resolveEmail lead ea = Except.error r := by
      simp [resolveEmail, he, hd, hea]
    simp [enrichLead, hre]
  · intro resolved r hres hsa
    simp [enrichLead, hres, hsa]

/-- Stub email adapter for witnesses: always resolves. -/
def stubEmailAdapter : String → Except String (String × ℚ) :=
  fun dom => Except.ok ("jane.doe@" ++ dom, 9/10)

/-- Stub scoring adapter for witnesses: always scores 88. -/
def stubScoringAdapter : ELead → Except String Int :=
  fun _ => Except.ok 88

/-- A lead in `Enriching` with no email and no company domain: its
enrichment attempt fails on invalid input. -/
def leadNoDomain : ELead :=
  { id := 7, status := LeadStatus.Enriching, score := some 41, email := none,
    predicted_email := none, email_confidence := none, company_domain := none,
    failure_reason := none }

/-- Witness for C5 at `leadNoDomain` and the stub adapters. -/
theorem enrichLead_failure_frame_witness :
    leadNoDomain.status = LeadStatus.Enriching ∧
    (enrichLead leadNoDomain stubEmailAdapter stubScoringAdapter).status =
      LeadStatus.EnrichmentFailed ∧
    (enrichLead leadNoDomain stubEmailAdapter stubScoringAdapter).score =
      leadNoDomain.score :=
  ⟨rfl,
   ((enrichLead_failure_frame leadNoDomain stubEmailAdapter stubScoringAdapter
        rfl).2.2.1 rfl rfl).1,
   ((enrichLead_failure_frame leadNoDomain stubEmailAdapter stubScoringAdapter
        rfl).2.1
      ((enrichLead_failure_frame leadNoDomain stubEmailAdapter stubScoringAdapter
          rfl).2.2.1 rfl rfl).1).1⟩

/-- A lead in `Enriching` with valid enrichment inputs. -/
def leadAOk : ELead :=
  { id := 1, status := LeadStatus.Enriching, score := none, email := none,
    predicted_email := none, email_confidence := none,
    company_domain := some "acme.com", failure_reason := none }

/-- C6: a batch enrich answers HTTP 200 with one result per lead, each item
depending only on its own lead; on the concrete batch of a valid lead and
a lead with no company domain, the first ends `Scored`, the second ends
`EnrichmentFailed` with its prior score intact, and the response still
carries status 200 with per-item outcomes. -/
theorem batchEnrich_per_item :
    (∀ (leads : List ELead) (ea : String → Except String (String × ℚ))
        (sa : ELead → Except String Int),
        (batchEnrich leads ea sa).2.httpStatus = 200 ∧
        (batchEnrich leads ea sa).1.length = leads.length ∧
        (batchEnrich leads ea sa).2.items.length = leads.length ∧
        ∀ i : Nat, (batchEnrich leads ea sa).1[i]? =
          (leads[i]?).map (fun l => enrichLead l ea sa)) ∧
    ((batchEnrich [leadAOk, leadNoDomain] stubEmailAdapter stubScoringAdapter).1.map
        ELead.status = [LeadStatus.Scored, LeadStatus.EnrichmentFailed] ∧
      (batchEnrich [leadAOk, leadNoDomain] stubEmailAdapter stubScoringAdapter).1.map
        ELead.score = [some 88, some 41] ∧
      (batchEnrich [leadAOk, leadNoDomain] stubEmailAdapter stubScoringAdapter).2.httpStatus
        = 200 ∧
      (batchEnrich [leadAOk, leadNoDomain] stubEmailAdapter stubScoringAdapter).2.items
        = [⟨1, true⟩, ⟨7, false⟩]) := by
  constructor
  · intro leads ea sa
    refine ⟨rfl, by simp [batchEnrich], by simp [batchEnrich], fun i => ?_⟩
    simp [batchEnrich]
  · exact ⟨by decide, by decide, rfl, by decide⟩

/-- Counter bookkeeping: after a sequence of events, each campaign counter
equals its initial value plus the number of matching events delivered. -/
theorem runEvents_count (es : List CampaignEvent) :
    ∀ c : EmailCampaign,
      (runEvents c es).sent_count = c.sent_count + es.count CampaignEvent.sendSuccess ∧
      (runEvents c es).open_count = c.open_count + es.count CampaignEvent.opened ∧
      (runEvents c es).click_count = c.click_count + es.count CampaignEvent.clicked ∧
      (runEvents c es).reply_count = c.reply_count + es.count CampaignEvent.replied := by
  induction es with
  | nil => intro c; simp [runEvents]
  | cons e es ih =>
    intro c
    have h := ih (applyEvent c e)
    have hrun : runEvents c (e :: es) = runEvents (applyEvent c e) es := rfl
    rw [hrun]
    cases e <;> simp [applyEvent, List.count_cons] at h ⊢ <;> omega

/-- A freshly started running campaign with all counters at zero. -/
def campaignRunning : EmailCampaign :=
  { id := 1, name := "Launch", status := "running", from_email := "ops@acme.com",
    template_id := 1, sent_count := 0, open_count := 0, click_count := 0,
    reply_count := 0, project_id := 1, creator_id := 1, created_at := "2024-01-01" }

/-- C7: under every sequence of send and engagement events, each of the
four campaign counters is monotonically non-decreasing and ends at its
initial value plus the number of matching delivered events (no lost
updates); and no cross-counter inequality holds: a single reply event
yields a reply count above the open count. -/
theorem campaignCounters_monotone :
    (∀ (c : EmailCampaign) (es : List CampaignEvent),
        (c.sent_count ≤ (runEvents c es).sent_count ∧
          c.open_count ≤ (runEvents c es).open_count ∧
          c.click_count ≤ (runEvents c es).click_count ∧
          c.reply_count ≤ (runEvents c es).reply_count) ∧
        ((runEvents c es).sent_count = c.sent_count + es.count CampaignEvent.sendSuccess ∧
          (runEvents c es).open_count = c.open_count + es.count CampaignEvent.opened ∧
          (runEvents c es).click_count = c.click_count + es.count CampaignEvent.clicked ∧
          (runEvents c es).reply_count = c.reply_count + es.count CampaignEvent.replied)) ∧
    (runEvents campaignRunning [CampaignEvent.replied]).open_count <
      (runEvents campaignRunning [CampaignEvent.replied]).reply_count := by
  constructor
  · intro c es
    obtain ⟨h1, h2, h3, h4⟩ := runEvents_count es c
    exact ⟨⟨by omega, by omega, by omega, by omega⟩, h1, h2, h3, h4⟩
  · decide

end LeadGen
